import Mathlib

/-!
Shallow embedding of the shrinkpdf Ghostscript worker
(`src/worker/gs.worker.ts`) together with proofs about its
orchestration layer: the progress-line parser, the PDF version sniffer,
the Ghostscript argument builder, the size-fallback policy, the per-job
runner and the sequential job queue.

Modelling conventions:
* byte buffers (`Uint8Array` / `ArrayBuffer`) are `List Nat`;
* JS numbers obtained from `Number` applied to digit strings are modelled
  exactly over `Nat` (the `Number.isFinite` guards in the source can only
  fail for numerals of three hundred digits or more, far outside any page
  count, so they are modelled as always passing);
* the percentage `Math.floor((currentPage / totalPages) * 100)` is
  modelled with IEEE-754 binary64 arithmetic made exact over `ℕ`
  (`roundSig53`: 53-bit round-to-nearest-even significands, exact on
  the normal range, hence for all page counts below `2^53`) — the
  division is rounded, the product with 100 is rounded again, then
  floored, reproducing rounding artefacts such as 28 instead of 29 at
  29 of 100 pages;
* the opaque Ghostscript engine is a per-job environment (`EngineRun`)
  recording whether instantiation fails, which log lines the engine
  prints during `callMain`, and the outcome of running it and reading
  back `/out.pdf`;
* the two regular expressions of the source are embedded as explicit
  leftmost-match scanners over `List Char`, with JS `\s` and ASCII
  case-insensitivity spelled out.
-/

/-- Module-scoped progress state of the worker: `activeJobId`,
`totalPages`, `currentPage` (source lines 30-32). -/
structure ProgState where
  activeJobId : Option String
  totalPages : Option Nat
  currentPage : Nat
  deriving Repr, DecidableEq

/-- The `GSProgress` payload posted with each progress message. -/
structure GSProgress where
  percent : Nat
  current : Nat
  total : Option Nat
  deriving Repr, DecidableEq

/-- Messages posted by the worker via `self.postMessage`. -/
inductive WorkerEvent where
  | status (jobId : String) (stage : String) (message : Option String)
  | progress (jobId : String) (p : GSProgress)
  | result (jobId : String) (out : List Nat) (usedOriginal : Bool) (pdfVersionUsed : String)
  | error (jobId : String) (message : String)
  deriving Repr, DecidableEq

/-- Whitespace class of the JavaScript regex escape `\s`. -/
def jsSpace (c : Char) : Bool :=
  c = ' ' || c = '\t' || c = '\n' || c = '\r' ||
  c = Char.ofNat 0x0B || c = Char.ofNat 0x0C ||
  c = Char.ofNat 0xA0 || c = Char.ofNat 0x1680 ||
  (0x2000 ≤ c.toNat && c.toNat ≤ 0x200A) ||
  c = Char.ofNat 0x2028 || c = Char.ofNat 0x2029 ||
  c = Char.ofNat 0x202F || c = Char.ofNat 0x205F ||
  c = Char.ofNat 0x3000 || c = Char.ofNat 0xFEFF

/-- Value of a decimal digit string, as `Number` yields on `\d+` captures. -/
def digitsToNat (ds : List Char) : Nat :=
  ds.foldl (fun n c => n * 10 + (c.toNat - 48)) 0

/-- Strip a literal pattern, ASCII case-insensitively (the pattern is given
in lowercase); returns the remainder of the input on success. -/
def stripLitCI : List Char → List Char → Option (List Char)
  | [], cs => some cs
  | _ :: _, [] => none
  | p :: ps, c :: cs => if c.toLower = p then stripLitCI ps cs else none

/-- Consume `\s+`: at least one JS whitespace character, maximal munch. -/
def stripWs1 : List Char → Option (List Char)
  | [] => none
  | c :: cs => if jsSpace c then some (cs.dropWhile jsSpace) else none

/-- Split off a maximal run of decimal digits. -/
def takeDigits (cs : List Char) : List Char × List Char :=
  (cs.takeWhile Char.isDigit, cs.dropWhile Char.isDigit)

/-- Match `/Processing pages\s+(\d+)\s+through\s+(\d+)\./i` anchored at the
head of the character list, returning the two captured numbers. -/
def matchProcessingFrom (cs : List Char) : Option (Nat × Nat) := do
  let cs ← stripLitCI ("processing pages".data) cs
  let cs ← stripWs1 cs
  let (d1, cs) := takeDigits cs
  if d1.isEmpty then none else
  let cs ← stripWs1 cs
  let cs ← stripLitCI ("through".data) cs
  let cs ← stripWs1 cs
  let (d2, cs) := takeDigits cs
  if d2.isEmpty then none else
  match cs with
  | '.' :: _ => some (digitsToNat d1, digitsToNat d2)
  | _ => none

/-- Leftmost unanchored search for the `Processing pages … through … .`
pattern, as `line.match` performs. -/
def findProcessing : List Char → Option (Nat × Nat)
  | [] => none
  | c :: rest =>
    match matchProcessingFrom (c :: rest) with
    | some r => some r
    | none => findProcessing rest

/-- Match the whole line against `/^\s*Page\s+(\d+)\s*$/i`. -/
def matchPageLine (cs : List Char) : Option Nat :=
  let cs := cs.dropWhile jsSpace
  match stripLitCI ("page".data) cs with
  | none => none
  | some cs =>
    match stripWs1 cs with
    | none => none
    | some cs =>
      let (d, cs) := takeDigits cs
      if d.isEmpty then none
      else if (cs.dropWhile jsSpace).isEmpty then some (digitsToNat d)
      else none

/-- Integer base-2 logarithm by structural recursion on a fuel bound
(`Nat.log2` itself is defined by well-founded recursion, which the
kernel cannot evaluate). -/
def natLog2Aux : ℕ → ℕ → ℕ
  | 0, _ => 0
  | f + 1, n => if n ≥ 2 then natLog2Aux f (n / 2) + 1 else 0

/-- `⌊log2 n⌋` for `n ≥ 1` (and 0 at 0). -/
def natLog2 (n : ℕ) : ℕ := natLog2Aux n n

/-- Helper for binary64 rounding: whether `2 ^ e ≤ a / b` for positive
naturals `a`, `b`. -/
def pow2LE (e : ℤ) (a b : ℕ) : Bool :=
  if 0 ≤ e then decide (b * 2 ^ e.toNat ≤ a) else decide (b ≤ a * 2 ^ (-e).toNat)

/-- `⌊log2 (a / b)⌋` for positive naturals `a`, `b`: the true value lies
in `{la - lb - 1, la - lb}` where `la`, `lb` are the integer logs of the
numerator and denominator, so testing the candidates from above finds
it. -/
def ratLog2 (a b : ℕ) : ℤ :=
  let g : ℤ := (natLog2 a : ℤ) - (natLog2 b : ℤ) + 1
  if pow2LE g a b then g
  else if pow2LE (g - 1) a b then g - 1
  else g - 2

/-- Round the positive rational `a / b` (both arguments positive) to 53
significant binary digits, round to nearest, ties to even — the value a
positive real in the binary64 normal range assumes when stored in an
IEEE-754 double. Returns the significand–exponent pair `(m, e)`, value
`m * 2^e`, with `2^52 ≤ m ≤ 2^53` (the upper bound only on a rounding
carry, which leaves the value exact). -/
def roundSig53 (a b : ℕ) : ℕ × ℤ :=
  let e : ℤ := ratLog2 a b - 52
  let nd : ℕ × ℕ := if 0 ≤ e then (a, b * 2 ^ e.toNat) else (a * 2 ^ (-e).toNat, b)
  let q0 := nd.1 / nd.2
  let r := nd.1 % nd.2
  let m := if 2 * r > nd.2 then q0 + 1
           else if 2 * r < nd.2 then q0
           else if q0 % 2 = 0 then q0 else q0 + 1
  (m, e)

/-- `Math.floor((c / t) * 100)` evaluated in IEEE-754 binary64
arithmetic, computed exactly over `ℕ`: the quotient `c / t` is rounded
to a double, the product with 100 is rounded to a double again, and the
floor of the result is taken. Exponent overflow and gradual underflow
are not modelled; the computation is exact for all page counts below
`2^53`, which also keeps the page counts themselves exactly
representable as doubles. -/
def doubleFloorTimes100 (c t : ℕ) : ℕ :=
  if c = 0 then 0 else
  let me1 := roundSig53 c t
  let ab2 : ℕ × ℕ :=
    if 0 ≤ me1.2 then (100 * me1.1 * 2 ^ me1.2.toNat, 1)
    else (100 * me1.1, 2 ^ (-me1.2).toNat)
  let me2 := roundSig53 ab2.1 ab2.2
  if 0 ≤ me2.2 then me2.1 * 2 ^ me2.2.toNat else me2.1 / 2 ^ (-me2.2).toNat

/-- The double-precision percentage the worker computes from a current
page `c` and a total `t`: `Math.min(99, Math.max(0, raw))` with
`raw = Math.floor((c / t) * 100)` in IEEE-754 doubles. -/
def doublePercent (c t : ℕ) : ℕ :=
  min 99 (max 0 (doubleFloorTimes100 c t))

/-- Percentage computed by `emitProgress` (source lines 43-49): zero while
`totalPages` is unset, otherwise the clamped double-precision
`floor(currentPage / totalPages * 100)`. -/
def emitPercent (st : ProgState) : Nat :=
  match st.totalPages with
  | none => 0
  | some t => if t > 0 then doublePercent st.currentPage t else 0

/-- The progress payload posted by `emitProgress`. -/
def emitProgress (st : ProgState) : GSProgress :=
  ⟨emitPercent st, st.currentPage, st.totalPages⟩

/-- `parseGsLine` (source lines 61-84): the log-line sink registered for
both Ghostscript output streams. Returns the updated progress state and
the progress messages posted while consuming the line. -/
def parseGsLine (st : ProgState) (line : String) : ProgState × List WorkerEvent :=
  match st.activeJobId with
  | none => (st, [])
  | some jid =>
    if jid = "" then (st, [])
    else
      match findProcessing line.data with
      | some (s, e) =>
        if e ≥ s then
          let st' := { st with totalPages := some (e - s + 1) }
          (st', [.progress jid (emitProgress st')])
        else (st, [])
      | none =>
        match matchPageLine line.data with
        | some p =>
          if p > st.currentPage then
            let st' := { st with
              currentPage := p,
              totalPages := if st.totalPages = none ∧ p = 1 then some 1 else st.totalPages }
            (st', [.progress jid (emitProgress st')])
          else (st, [])
        | none => (st, [])

/-- Feed a sequence of engine log lines through `parseGsLine`,
accumulating the posted progress events. -/
def feedLines (st : ProgState) : List String → ProgState × List WorkerEvent
  | [] => (st, [])
  | l :: ls =>
    let fst := parseGsLine st l
    let rest := feedLines fst.1 ls
    (rest.1, fst.2 ++ rest.2)

/-- Permissive ASCII decoding used by `detectPdfVersion`: every byte below
128 decodes to its own code point, and no byte above 127 can decode to a
character of the `%PDF-` pattern (true of both the windows-1252 decoder
the source obtains and of this direct mapping). -/
def asciiDecode (bytes : List Nat) : List Char :=
  bytes.map (fun b => Char.ofNat b)

/-- Match `/%PDF-(\d\.\d)/` anchored at the head of the character list,
returning the capture. -/
def matchPdfVersionAt : List Char → Option String
  | '%' :: 'P' :: 'D' :: 'F' :: '-' :: a :: '.' :: b :: _ =>
    if a.isDigit && b.isDigit then some (String.mk [a, '.', b]) else none
  | _ => none

/-- Leftmost unanchored search for the `%PDF-` version marker. -/
def findPdfVersion : List Char → Option String
  | [] => none
  | c :: rest =>
    match matchPdfVersionAt (c :: rest) with
    | some v => some v
    | none => findPdfVersion rest

/-- `detectPdfVersion` (source lines 54-59): sniff the declared PDF
version from the first 1024 bytes. -/
def detectPdfVersion (bytes : List Nat) : Option String :=
  findPdfVersion (asciiDecode (bytes.take 1024))

/-- `ShrinkOptions` (from `src/worker/types.ts`): all fields optional;
JS numbers are modelled as rationals. -/
structure ShrinkOptions where
  grayscale : Option Bool := none
  resolutionDpi : Option ℚ := none
  threshold : Option ℚ := none
  pdfSettings : Option String := none
  deriving Repr, DecidableEq

/-- Fixed input path in the engine's virtual filesystem. -/
def inPath : String := "/in.pdf"

/-- Fixed output path in the engine's virtual filesystem. -/
def outPath : String := "/out.pdf"

/-- The ordered Ghostscript argument list built by `shrinkPdfLikeScript`
(source lines 118-156): option normalisation (`Math.max` floors and the
`??` defaults), the fixed argument block, the three grayscale arguments
pushed when `options.grayscale` is set, and finally the input path. -/
def buildArgs (options : ShrinkOptions) (pdfVersion : String) : List String :=
  let grayscale := options.grayscale.getD false
  let res : ℚ := match options.resolutionDpi with
    | some r => max 1 r
    | none => 72
  let threshold : ℚ := match options.threshold with
    | some t => max (1 / 10) t
    | none => 3 / 2
  let pdfSettings := options.pdfSettings.getD "ebook"
  let args : List String := [
    "-dNOPAUSE",
    "-dBATCH",
    "-dSAFER",
    "-sDEVICE=pdfwrite",
    "-dCompatibilityLevel=" ++ pdfVersion,
    "-dPDFSETTINGS=/" ++ pdfSettings,
    "-dEmbedAllFonts=true",
    "-dSubsetFonts=true",
    "-dAutoRotatePages=/None",
    "-dColorImageDownsampleType=/Bicubic",
    "-dColorImageResolution=" ++ toString res,
    "-dColorImageDownsampleThreshold=" ++ toString threshold,
    "-dGrayImageDownsampleType=/Bicubic",
    "-dGrayImageResolution=" ++ toString res,
    "-dGrayImageDownsampleThreshold=" ++ toString threshold,
    "-dMonoImageDownsampleType=/Subsample",
    "-dMonoImageResolution=" ++ toString res,
    "-dMonoImageDownsampleThreshold=" ++ toString threshold,
    "-dPreserveAnnots=false",
    "-sOutputFile=" ++ outPath]
  let args := if grayscale then
      args ++ ["-sProcessColorModel=DeviceGray",
               "-sColorConversionStrategy=Gray",
               "-dOverrideICC"]
    else args
  args ++ [inPath]

/-- Behaviour of one fresh opaque engine instance during one job:
whether `createGS` rejects, the log lines printed during `callMain`,
and the outcome of the run (the bytes read back from `/out.pdf`, or the
message of the exception thrown by `callMain`/`readFile`). -/
structure EngineRun where
  createFails : Option String
  logLines : List String
  runResult : Except String (List Nat)
  deriving Repr

/-- Value computed by `shrinkPdfLikeScript` on success. -/
structure ShrinkOut where
  out : List Nat
  usedOriginal : Bool
  pdfVersionUsed : String
  deriving Repr, DecidableEq

/-- Result of one `shrinkPdfLikeScript` invocation: updated progress
state, progress events posted while the engine logged, and the returned
value or thrown error. -/
structure ShrinkStep where
  state : ProgState
  events : List WorkerEvent
  result : Except String ShrinkOut
  deriving Repr

/-- `shrinkPdfLikeScript` (source lines 94-163): resolve the PDF version,
build the engine arguments, run the engine (whose log lines feed
`parseGsLine`), read back the output and apply the size-fallback
policy: an output strictly larger than the input is discarded in favour
of the original bytes. -/
def shrinkPdfLikeScript (st : ProgState) (run : EngineRun)
    (inputPdf : List Nat) (options : ShrinkOptions) : ShrinkStep :=
  let pdfVersion := (detectPdfVersion inputPdf).getD "1.5"
  let args := buildArgs options pdfVersion
  let fed := feedLines st run.logLines
  match run.runResult with
  | .error m => ⟨fed.1, fed.2, .error m⟩
  | .ok out =>
    if out.length > inputPdf.length then
      ⟨fed.1, fed.2, .ok ⟨inputPdf, true, pdfVersion⟩⟩
    else
      ⟨fed.1, fed.2, .ok ⟨out, false, pdfVersion⟩⟩

/-- A `compress` request message. -/
structure CompressMsg where
  jobId : String
  pdfBuffer : List Nat
  options : ShrinkOptions
  deriving Repr, DecidableEq

/-- The worker's initial (and between-jobs) progress state:
`activeJobId = null`, `totalPages = null`, `currentPage = 0`. -/
def cleanProgState : ProgState := ⟨none, none, 0⟩

/-- Result of one `handleJob` invocation: the events it posted, the
module progress state it leaves behind, and—when it rejected—the error
message later reported by the queue's `catch`. -/
structure JobRun where
  events : List WorkerEvent
  finalState : ProgState
  failure : Option String
  deriving Repr, DecidableEq

/-- `handleJob` (source lines 166-201): status events, engine creation,
progress-state initialisation, the shrink call, the final forced-100%
progress and result on success, and the `finally` block clearing the
progress state on every path that entered the `try`. -/
def handleJob (st : ProgState) (msg : CompressMsg) (run : EngineRun) : JobRun :=
  let evs0 : List WorkerEvent :=
    [.status msg.jobId "loading" (some "Loading Ghostscript WASM…")]
  match run.createFails with
  | some m => ⟨evs0, st, some m⟩
  | none =>
    let st1 : ProgState := ⟨some msg.jobId, none, 0⟩
    let evs1 := evs0 ++
      [.status msg.jobId "ready" (some "Ghostscript ready."),
       .progress msg.jobId (emitProgress st1),
       .status msg.jobId "running" (some "Compressing…")]
    let s := shrinkPdfLikeScript st1 run msg.pdfBuffer msg.options
    match s.result with
    | .error m => ⟨evs1 ++ s.events, cleanProgState, some m⟩
    | .ok r =>
      let doneEvs : List WorkerEvent :=
        [.progress msg.jobId ⟨100, s.state.totalPages.getD s.state.currentPage, s.state.totalPages⟩,
         .status msg.jobId "done"
           (some (if r.usedOriginal then "Output larger; returned original." else "Done.")),
         .result msg.jobId r.out r.usedOriginal r.pdfVersionUsed]
      ⟨evs1 ++ s.events ++ doneEvs, cleanProgState, none⟩

/-- The promise chain of `self.onmessage` (source lines 204-212): each
job runs strictly after the previous one settles, and a rejection is
converted by `catch` into an `error` event for that job. -/
def processQueue (st : ProgState) : List (CompressMsg × EngineRun) → List WorkerEvent
  | [] => []
  | (msg, run) :: rest =>
    let jr := handleJob st msg run
    let evs := match jr.failure with
      | some m => jr.events ++ [.error msg.jobId m]
      | none => jr.events
    evs ++ processQueue jr.finalState rest

/-- All events one queued job contributes to the worker's output stream
(its `handleJob` events plus the `catch`-emitted error, if any). -/
def jobBlock (msg : CompressMsg) (run : EngineRun) : List WorkerEvent :=
  let jr := handleJob cleanProgState msg run
  match jr.failure with
  | some m => jr.events ++ [.error msg.jobId m]
  | none => jr.events

/-- Whether an event is terminal (a `result` or an `error`). -/
def isTerminal : WorkerEvent → Bool
  | .result _ _ _ _ => true
  | .error _ _ => true
  | _ => false

/-- Job identifier carried by an event. -/
def eventJobId : WorkerEvent → String
  | .status j _ _ => j
  | .progress j _ => j
  | .result j _ _ _ => j
  | .error j _ => j

/-- The unique terminal event of one queued job. -/
def terminalEvent (msg : CompressMsg) (run : EngineRun) : WorkerEvent :=
  match (handleJob cleanProgState msg run).failure with
  | some m => .error msg.jobId m
  | none =>
    match (shrinkPdfLikeScript ⟨some msg.jobId, none, 0⟩ run msg.pdfBuffer msg.options).result with
    | .ok r => .result msg.jobId r.out r.usedOriginal r.pdfVersionUsed
    | .error m => .error msg.jobId m

/-- The module progress state as each queued job starts. -/
def queueStates (st : ProgState) : List (CompressMsg × EngineRun) → List ProgState
  | [] => []
  | (msg, run) :: rest => st :: queueStates (handleJob st msg run).finalState rest

theorem doublePercent_le (c t : ℕ) : doublePercent c t ≤ 99 := by
  unfold doublePercent
  exact min_le_left 99 _

theorem emitPercent_le (st : ProgState) : emitPercent st ≤ 99 := by
  unfold emitPercent
  cases st.totalPages with
  | none => exact Nat.zero_le _
  | some t =>
    dsimp only
    by_cases h : t > 0
    · rw [if_pos h]
      exact doublePercent_le st.currentPage t
    · rw [if_neg h]
      exact Nat.zero_le 99

/-- Case analysis of one `parseGsLine` step: either the line leaves the
state untouched and posts nothing, or the state advances and exactly one
progress event for the active job is posted. -/
theorem parseGsLine_spec (st : ProgState) (l : String) :
    parseGsLine st l = (st, []) ∨
    ∃ st' jid, parseGsLine st l = (st', [.progress jid (emitProgress st')]) ∧
      st.activeJobId = some jid ∧
      st'.activeJobId = st.activeJobId ∧
      st.currentPage ≤ st'.currentPage ∧
      (st'.totalPages = st.totalPages ∨ ∃ t, st'.totalPages = some t ∧ 1 ≤ t) ∧
      (findProcessing l.data = none →
        st'.totalPages = st.totalPages ∨ (st.totalPages = none ∧ st'.totalPages = some 1)) := by
  unfold parseGsLine
  cases hA : st.activeJobId with
  | none => exact Or.inl rfl
  | some jid =>
    dsimp only
    by_cases hj : jid = ""
    · rw [if_pos hj]
      exact Or.inl rfl
    · rw [if_neg hj]
      cases hP : findProcessing l.data with
      | some se =>
        obtain ⟨s, e⟩ := se
        dsimp only
        by_cases hse : e ≥ s
        · rw [if_pos hse]
          refine Or.inr ⟨⟨some jid, some (e - s + 1), st.currentPage⟩, jid,
            rfl, rfl, rfl, le_refl _,
            Or.inr ⟨e - s + 1, rfl, Nat.le_add_left 1 _⟩, ?_⟩
          intro h
          simp at h
        · rw [if_neg hse]
          exact Or.inl rfl
      | none =>
        cases hM : matchPageLine l.data with
        | some p =>
          dsimp only
          by_cases hp : p > st.currentPage
          · rw [if_pos hp]
            refine Or.inr ⟨⟨some jid,
              (if st.totalPages = none ∧ p = 1 then some 1 else st.totalPages), p⟩, jid,
              rfl, rfl, rfl, le_of_lt hp, ?_, ?_⟩
            · by_cases h0 : st.totalPages = none ∧ p = 1
              · exact Or.inr ⟨1, by simp [h0], le_refl 1⟩
              · exact Or.inl (by simp [h0])
            · intro _
              by_cases h0 : st.totalPages = none ∧ p = 1
              · exact Or.inr ⟨h0.1, by simp [h0]⟩
              · exact Or.inl (by simp [h0])
          · rw [if_neg hp]
            exact Or.inl rfl
        | none => exact Or.inl rfl

theorem parseGsLine_activeJobId (st : ProgState) (l : String) :
    (parseGsLine st l).1.activeJobId = st.activeJobId := by
  rcases parseGsLine_spec st l with h | ⟨st', jid, h, _, hA', _⟩
  · rw [h]
  · rw [h]
    exact hA'

theorem parseGsLine_currentPage_mono (st : ProgState) (l : String) :
    st.currentPage ≤ (parseGsLine st l).1.currentPage := by
  rcases parseGsLine_spec st l with h | ⟨st', jid, h, _, _, hm, _⟩
  · rw [h]
  · rw [h]
    exact hm

theorem parseGsLine_totalPages_isSome (st : ProgState) (l : String)
    (h : st.totalPages.isSome) : ((parseGsLine st l).1.totalPages).isSome := by
  rcases parseGsLine_spec st l with hq | ⟨st', jid, hq, _, _, _, ht, _⟩
  · rw [hq]
    exact h
  · rw [hq]
    rcases ht with he | ⟨t, he, _⟩
    · rw [he]
      exact h
    · rw [he]
      rfl

theorem parseGsLine_inv (st : ProgState) (l : String)
    (h : ∀ t, st.totalPages = some t → 1 ≤ t) :
    ∀ t, (parseGsLine st l).1.totalPages = some t → 1 ≤ t := by
  rcases parseGsLine_spec st l with hq | ⟨st', jid, hq, _, _, _, ht, _⟩
  · rw [hq]
    exact h
  · rw [hq]
    intro t hT
    rcases ht with he | ⟨t', he, h1⟩
    · exact h t (he ▸ hT)
    · rw [he] at hT
      simp at hT
      exact hT ▸ h1

theorem parseGsLine_events (st : ProgState) (l : String) :
    ∀ e ∈ (parseGsLine st l).2,
      ∃ jid pr, st.activeJobId = some jid ∧ e = .progress jid pr ∧ pr.percent ≤ 99 := by
  rcases parseGsLine_spec st l with h | ⟨st', jid, h, hA, _⟩
  · rw [h]
    intro e he
    simp at he
  · rw [h]
    intro e he
    simp at he
    exact ⟨jid, emitProgress st', hA, he, emitPercent_le st'⟩

theorem feedLines_activeJobId (st : ProgState) (ls : List String) :
    (feedLines st ls).1.activeJobId = st.activeJobId := by
  induction ls generalizing st with
  | nil => rfl
  | cons l ls ih =>
    show (feedLines (parseGsLine st l).1 ls).1.activeJobId = st.activeJobId
    rw [ih, parseGsLine_activeJobId]

theorem feedLines_currentPage_mono (st : ProgState) (ls : List String) :
    st.currentPage ≤ (feedLines st ls).1.currentPage := by
  induction ls generalizing st with
  | nil => exact le_refl _
  | cons l ls ih =>
    exact le_trans (parseGsLine_currentPage_mono st l) (ih (parseGsLine st l).1)

theorem feedLines_totalPages_isSome (st : ProgState) (ls : List String)
    (h : st.totalPages.isSome) : ((feedLines st ls).1.totalPages).isSome := by
  induction ls generalizing st with
  | nil => exact h
  | cons l ls ih =>
    exact ih (parseGsLine st l).1 (parseGsLine_totalPages_isSome st l h)

theorem feedLines_inv (st : ProgState) (ls : List String)
    (h : ∀ t, st.totalPages = some t → 1 ≤ t) :
    ∀ t, (feedLines st ls).1.totalPages = some t → 1 ≤ t := by
  induction ls generalizing st with
  | nil => exact h
  | cons l ls ih =>
    exact ih (parseGsLine st l).1 (parseGsLine_inv st l h)

theorem feedLines_events (st : ProgState) (ls : List String) :
    ∀ e ∈ (feedLines st ls).2,
      ∃ jid pr, st.activeJobId = some jid ∧ e = .progress jid pr ∧ pr.percent ≤ 99 := by
  induction ls generalizing st with
  | nil =>
    intro e he
    simp [feedLines] at he
  | cons l ls ih =>
    intro e he
    replace he : e ∈ (parseGsLine st l).2 ++ (feedLines (parseGsLine st l).1 ls).2 := he
    rcases List.mem_append.mp he with he | he
    · exact parseGsLine_events st l e he
    · obtain ⟨jid, pr, hA, he', hp⟩ := ih (parseGsLine st l).1 e he
      refine ⟨jid, pr, ?_, he', hp⟩
      rw [← parseGsLine_activeJobId st l]
      exact hA

theorem handleJob_events_failure_st (st st' : ProgState) (msg : CompressMsg) (run : EngineRun) :
    (handleJob st msg run).events = (handleJob st' msg run).events ∧
    (handleJob st msg run).failure = (handleJob st' msg run).failure := by
  unfold handleJob
  cases run.createFails with
  | some m => exact ⟨rfl, rfl⟩
  | none => exact ⟨rfl, rfl⟩

theorem jobHead_eq_jobBlock (st : ProgState) (msg : CompressMsg) (run : EngineRun) :
    (match (handleJob st msg run).failure with
      | some m => (handleJob st msg run).events ++ [WorkerEvent.error msg.jobId m]
      | none => (handleJob st msg run).events) = jobBlock msg run := by
  obtain ⟨he, hf⟩ := handleJob_events_failure_st st cleanProgState msg run
  rw [he, hf]
  rfl

theorem processQueue_eq_flatMap (st : ProgState) (jobs : List (CompressMsg × EngineRun)) :
    processQueue st jobs = jobs.flatMap (fun p => jobBlock p.1 p.2) := by
  induction jobs generalizing st with
  | nil => rfl
  | cons j rest ih =>
    obtain ⟨msg, run⟩ := j
    show (match (handleJob st msg run).failure with
        | some m => (handleJob st msg run).events ++ [WorkerEvent.error msg.jobId m]
        | none => (handleJob st msg run).events) ++
        processQueue (handleJob st msg run).finalState rest = _
    rw [jobHead_eq_jobBlock, ih, List.flatMap_cons]

theorem shrink_events (st : ProgState) (run : EngineRun) (inputPdf : List Nat)
    (options : ShrinkOptions) :
    (shrinkPdfLikeScript st run inputPdf options).events = (feedLines st run.logLines).2 := by
  unfold shrinkPdfLikeScript
  cases run.runResult with
  | error m => rfl
  | ok out =>
    dsimp only
    split <;> rfl

theorem shrink_state (st : ProgState) (run : EngineRun) (inputPdf : List Nat)
    (options : ShrinkOptions) :
    (shrinkPdfLikeScript st run inputPdf options).state = (feedLines st run.logLines).1 := by
  unfold shrinkPdfLikeScript
  cases run.runResult with
  | error m => rfl
  | ok out =>
    dsimp only
    split <;> rfl

theorem feedLines_events_jobId (j : String) (ls : List String) :
    ∀ e ∈ (feedLines (⟨some j, none, 0⟩ : ProgState) ls).2,
      eventJobId e = j ∧ isTerminal e = false := by
  intro e he
  obtain ⟨jid, pr, hA, he', _⟩ := feedLines_events _ ls e he
  have hj : j = jid := by simpa using hA
  subst he'
  exact ⟨hj.symm, rfl⟩

theorem handleJob_createFail (st : ProgState) (msg : CompressMsg) (run : EngineRun)
    (m : String) (hc : run.createFails = some m) :
    handleJob st msg run =
      ⟨[.status msg.jobId "loading" (some "Loading Ghostscript WASM…")], st, some m⟩ := by
  unfold handleJob
  rw [hc]

theorem handleJob_runError (st : ProgState) (msg : CompressMsg) (run : EngineRun)
    (m : String) (hc : run.createFails = none)
    (hr : (shrinkPdfLikeScript ⟨some msg.jobId, none, 0⟩ run msg.pdfBuffer msg.options).result
      = .error m) :
    handleJob st msg run =
      ⟨[.status msg.jobId "loading" (some "Loading Ghostscript WASM…"),
        .status msg.jobId "ready" (some "Ghostscript ready."),
        .progress msg.jobId (emitProgress ⟨some msg.jobId, none, 0⟩),
        .status msg.jobId "running" (some "Compressing…")] ++
        (feedLines (⟨some msg.jobId, none, 0⟩ : ProgState) run.logLines).2,
       cleanProgState, some m⟩ := by
  unfold handleJob
  rw [hc]
  dsimp only
  rw [hr]
  dsimp only
  rw [shrink_events]
  rfl

theorem handleJob_runOk (st : ProgState) (msg : CompressMsg) (run : EngineRun)
    (r : ShrinkOut) (hc : run.createFails = none)
    (hr : (shrinkPdfLikeScript ⟨some msg.jobId, none, 0⟩ run msg.pdfBuffer msg.options).result
      = .ok r) :
    handleJob st msg run =
      ⟨([.status msg.jobId "loading" (some "Loading Ghostscript WASM…"),
        .status msg.jobId "ready" (some "Ghostscript ready."),
        .progress msg.jobId (emitProgress ⟨some msg.jobId, none, 0⟩),
        .status msg.jobId "running" (some "Compressing…")] ++
        (feedLines (⟨some msg.jobId, none, 0⟩ : ProgState) run.logLines).2) ++
        [.progress msg.jobId
          ⟨100, ((feedLines (⟨some msg.jobId, none, 0⟩ : ProgState) run.logLines).1.totalPages).getD
            (feedLines (⟨some msg.jobId, none, 0⟩ : ProgState) run.logLines).1.currentPage,
            (feedLines (⟨some msg.jobId, none, 0⟩ : ProgState) run.logLines).1.totalPages⟩,
         .status msg.jobId "done"
           (some (if r.usedOriginal then "Output larger; returned original." else "Done.")),
         .result msg.jobId r.out r.usedOriginal r.pdfVersionUsed],
       cleanProgState, none⟩ := by
  unfold handleJob
  rw [hc]
  dsimp only
  rw [hr]
  dsimp only
  rw [shrink_events, shrink_state]
  rfl

theorem jobBlock_jobId (msg : CompressMsg) (run : EngineRun) :
    ∀ e ∈ jobBlock msg run, eventJobId e = msg.jobId := by
  intro e he
  unfold jobBlock at he
  cases hc : run.createFails with
  | some m =>
    rw [handleJob_createFail cleanProgState msg run m hc] at he
    dsimp only at he
    simp only [List.mem_append, List.mem_singleton, List.mem_cons, List.not_mem_nil,
      or_false] at he
    rcases he with he | he <;> subst he <;> rfl
  | none =>
    cases hr : (shrinkPdfLikeScript ⟨some msg.jobId, none, 0⟩ run msg.pdfBuffer msg.options).result with
    | error m =>
      rw [handleJob_runError cleanProgState msg run m hc hr] at he
      dsimp only at he
      simp only [List.mem_append, List.mem_singleton, List.mem_cons, List.not_mem_nil,
        or_false] at he
      rcases he with ((he | he | he | he) | he) | he
      · subst he; rfl
      · subst he; rfl
      · subst he; rfl
      · subst he; rfl
      · exact (feedLines_events_jobId msg.jobId run.logLines e he).1
      · subst he; rfl
    | ok r =>
      rw [handleJob_runOk cleanProgState msg run r hc hr] at he
      dsimp only at he
      simp only [List.mem_append, List.mem_singleton, List.mem_cons, List.not_mem_nil,
        or_false] at he
      rcases he with ((he | he | he | he) | he) | (he | he | he)
      · subst he; rfl
      · subst he; rfl
      · subst he; rfl
      · subst he; rfl
      · exact (feedLines_events_jobId msg.jobId run.logLines e he).1
      · subst he; rfl
      · subst he; rfl
      · subst he; rfl

theorem feedLines_filter_terminal (j : String) (ls : List String) :
    ((feedLines (⟨some j, none, 0⟩ : ProgState) ls).2).filter (fun e => isTerminal e) = [] := by
  refine List.filter_eq_nil_iff.mpr ?_
  intro e he
  rw [(feedLines_events_jobId j ls e he).2]
  simp

theorem jobBlock_filter_terminal (msg : CompressMsg) (run : EngineRun) :
    (jobBlock msg run).filter (fun e => isTerminal e) = [terminalEvent msg run] := by
  unfold jobBlock terminalEvent
  cases hc : run.createFails with
  | some m =>
    rw [handleJob_createFail cleanProgState msg run m hc]
    dsimp only
    simp [isTerminal]
  | none =>
    cases hr : (shrinkPdfLikeScript ⟨some msg.jobId, none, 0⟩ run msg.pdfBuffer msg.options).result with
    | error m =>
      rw [handleJob_runError cleanProgState msg run m hc hr]
      dsimp only
      rw [List.filter_append, List.filter_append, feedLines_filter_terminal]
      simp [isTerminal]
    | ok r =>
      rw [handleJob_runOk cleanProgState msg run r hc hr]
      dsimp only
      rw [List.filter_append, List.filter_append, feedLines_filter_terminal]
      simp [isTerminal]

theorem terminalEvent_shape (msg : CompressMsg) (run : EngineRun) :
    (∃ out u v, terminalEvent msg run = .result msg.jobId out u v) ∨
    (∃ m, terminalEvent msg run = .error msg.jobId m) := by
  unfold terminalEvent
  cases (handleJob cleanProgState msg run).failure with
  | some m => exact Or.inr ⟨m, rfl⟩
  | none =>
    cases (shrinkPdfLikeScript ⟨some msg.jobId, none, 0⟩ run msg.pdfBuffer msg.options).result with
    | ok r => exact Or.inl ⟨r.out, r.usedOriginal, r.pdfVersionUsed, rfl⟩
    | error m => exact Or.inr ⟨m, rfl⟩

theorem processQueue_terminals (st : ProgState) (jobs : List (CompressMsg × EngineRun)) :
    (processQueue st jobs).filter (fun e => isTerminal e)
      = jobs.map (fun p => terminalEvent p.1 p.2) := by
  rw [processQueue_eq_flatMap]
  induction jobs with
  | nil => rfl
  | cons q rest ih =>
    rw [List.flatMap_cons, List.filter_append, jobBlock_filter_terminal, ih]
    rfl

theorem jobBlock_filter_other (msg : CompressMsg) (run : EngineRun) (jid : String)
    (h : msg.jobId ≠ jid) :
    (jobBlock msg run).filter (fun e => isTerminal e && (eventJobId e == jid)) = [] := by
  refine List.filter_eq_nil_iff.mpr ?_
  intro e he
  rw [jobBlock_jobId msg run e he]
  simp [h]

theorem jobBlock_filter_own (msg : CompressMsg) (run : EngineRun) :
    (jobBlock msg run).filter (fun e => isTerminal e && (eventJobId e == msg.jobId))
      = [terminalEvent msg run] := by
  have hcongr : ∀ e ∈ jobBlock msg run,
      (isTerminal e && (eventJobId e == msg.jobId)) = isTerminal e := by
    intro e he
    rw [jobBlock_jobId msg run e he]
    simp
  rw [List.filter_congr hcongr, jobBlock_filter_terminal]

theorem flatMap_filter_other (jobs : List (CompressMsg × EngineRun)) (jid : String)
    (h : ∀ q ∈ jobs, q.1.jobId ≠ jid) :
    (jobs.flatMap (fun p => jobBlock p.1 p.2)).filter
      (fun e => isTerminal e && (eventJobId e == jid)) = [] := by
  induction jobs with
  | nil => rfl
  | cons q rest ih =>
    rw [List.flatMap_cons, List.filter_append,
      jobBlock_filter_other q.1 q.2 jid (h q (List.mem_cons_self q rest)),
      ih (fun q' h' => h q' (List.mem_cons_of_mem q h'))]
    rfl

theorem handleJob_finalState_of_created (st : ProgState) (msg : CompressMsg)
    (run : EngineRun) (hc : run.createFails = none) :
    (handleJob st msg run).finalState = cleanProgState := by
  unfold handleJob
  rw [hc]
  dsimp only
  cases (shrinkPdfLikeScript ⟨some msg.jobId, none, 0⟩ run msg.pdfBuffer msg.options).result with
  | error m => rfl
  | ok r => rfl

theorem handleJob_clean_finalState (msg : CompressMsg) (run : EngineRun) :
    (handleJob cleanProgState msg run).finalState = cleanProgState := by
  cases hc : run.createFails with
  | some m => rw [handleJob_createFail cleanProgState msg run m hc]
  | none => exact handleJob_finalState_of_created cleanProgState msg run hc

theorem queueStates_clean (jobs : List (CompressMsg × EngineRun)) :
    queueStates cleanProgState jobs = List.replicate jobs.length cleanProgState := by
  induction jobs with
  | nil => rfl
  | cons j rest ih =>
    obtain ⟨msg, run⟩ := j
    show cleanProgState :: queueStates (handleJob cleanProgState msg run).finalState rest = _
    rw [handleJob_clean_finalState, ih, List.length_cons, List.replicate_succ]

theorem processQueue_filter_of_nodup (st : ProgState) (jobs : List (CompressMsg × EngineRun))
    (hnd : (jobs.map (fun p => p.1.jobId)).Nodup) (p : CompressMsg × EngineRun) (hp : p ∈ jobs) :
    (processQueue st jobs).filter (fun e => isTerminal e && (eventJobId e == p.1.jobId))
      = [terminalEvent p.1 p.2] := by
  rw [processQueue_eq_flatMap]
  induction jobs with
  | nil => exact absurd hp (List.not_mem_nil p)
  | cons q rest ih =>
    rw [List.map_cons, List.nodup_cons] at hnd
    rw [List.flatMap_cons, List.filter_append]
    rcases List.mem_cons.mp hp with rfl | hp'
    · rw [jobBlock_filter_own, flatMap_filter_other rest p.1.jobId
        (fun q' h' hEq => hnd.1 (hEq ▸ List.mem_map_of_mem (fun x => x.1.jobId) h'))]
      rfl
    · have hne : q.1.jobId ≠ p.1.jobId := by
        intro hEq
        exact hnd.1 (hEq ▸ List.mem_map_of_mem (fun x => x.1.jobId) hp')
      rw [jobBlock_filter_other q.1 q.2 p.1.jobId hne, ih hnd.2 hp']
      rfl

theorem findPdfVersion_eq_none_iff (cs : List Char) :
    findPdfVersion cs = none ↔ ∀ i, matchPdfVersionAt (cs.drop i) = none := by
  induction cs with
  | nil =>
    constructor
    · intro _ i
      rw [List.drop_nil]
      rfl
    · intro _
      rfl
  | cons c rest ih =>
    constructor
    · intro h i
      unfold findPdfVersion at h
      cases hm : matchPdfVersionAt (c :: rest) with
      | some v =>
        rw [hm] at h
        cases h
      | none =>
        rw [hm] at h
        dsimp only at h
        cases i with
        | zero => exact hm
        | succ i =>
          rw [List.drop_succ_cons]
          exact (ih.mp h) i
    · intro h
      unfold findPdfVersion
      have h0 := h 0
      rw [List.drop_zero] at h0
      rw [h0]
      dsimp only
      refine ih.mpr (fun i => ?_)
      have hi := h (i + 1)
      rwa [List.drop_succ_cons] at hi

theorem findPdfVersion_some (cs : List Char) (v : String) (h : findPdfVersion cs = some v) :
    ∃ i, matchPdfVersionAt (cs.drop i) = some v := by
  induction cs with
  | nil => cases h
  | cons c rest ih =>
    unfold findPdfVersion at h
    cases hm : matchPdfVersionAt (c :: rest) with
    | some w =>
      rw [hm] at h
      dsimp only at h
      injection h with h
      subst h
      exact ⟨0, hm⟩
    | none =>
      rw [hm] at h
      dsimp only at h
      obtain ⟨i, hi⟩ := ih h
      refine ⟨i + 1, ?_⟩
      rw [List.drop_succ_cons]
      exact hi

theorem matchPdfVersionAt_shape (cs : List Char) (v : String)
    (h : matchPdfVersionAt cs = some v) :
    ∃ a b, a.isDigit ∧ b.isDigit ∧ v = String.mk [a, '.', b] := by
  unfold matchPdfVersionAt at h
  split at h
  · rename_i a b tail
    split at h
    · rename_i hcond
      rw [Bool.and_eq_true] at hcond
      injection h with h
      exact ⟨a, b, hcond.1, hcond.2, h.symm⟩
    · cases h
  · cases h

/-- Test vector: the eight bytes of the ASCII text `%PDF-1.7`. -/
def pdf17HeaderBytes : List Nat := [0x25, 0x50, 0x44, 0x46, 0x2D, 0x31, 0x2E, 0x37]

theorem detectPdfVersion_header (suffix : List Nat) :
    detectPdfVersion (pdf17HeaderBytes ++ suffix) = some "1.7" := by
  unfold detectPdfVersion
  have h1 : (pdf17HeaderBytes ++ suffix).take 1024 = pdf17HeaderBytes ++ suffix.take 1016 := by
    rw [List.take_append_eq_append_take]
    have h2 : List.take 1024 pdf17HeaderBytes = pdf17HeaderBytes := by decide
    rw [h2]
    norm_num [pdf17HeaderBytes]
  rw [h1]
  rfl

theorem detectPdfVersion_take (bytes : List Nat) :
    detectPdfVersion bytes = detectPdfVersion (bytes.take 1024) := by
  unfold detectPdfVersion
  rw [List.take_take]
  norm_num

theorem shrink_result_version (st : ProgState) (run : EngineRun) (input : List Nat)
    (options : ShrinkOptions) (r : ShrinkOut)
    (h : (shrinkPdfLikeScript st run input options).result = Except.ok r) :
    r.pdfVersionUsed = (detectPdfVersion input).getD "1.5" := by
  unfold shrinkPdfLikeScript at h
  cases hr : run.runResult with
  | error m =>
    rw [hr] at h
    cases h
  | ok out =>
    rw [hr] at h
    dsimp only at h
    split at h
    · injection h with h
      rw [← h]
    · injection h with h
      rw [← h]

/-- C1: for every job, if the engine's output byte length is strictly
greater than the input byte length the job's result contains exactly the
original input bytes with `usedOriginal = true`; otherwise it contains
exactly the engine's output bytes with `usedOriginal = false` (the
version field is always the sniffed-or-default version). -/
theorem fallback_policy (st : ProgState) (run : EngineRun) (input : List Nat)
    (options : ShrinkOptions) (out : List Nat) (h : run.runResult = Except.ok out) :
    (out.length > input.length →
      (shrinkPdfLikeScript st run input options).result
        = Except.ok ⟨input, true, (detectPdfVersion input).getD "1.5"⟩) ∧
    (out.length ≤ input.length →
      (shrinkPdfLikeScript st run input options).result
        = Except.ok ⟨out, false, (detectPdfVersion input).getD "1.5"⟩) := by
  unfold shrinkPdfLikeScript
  rw [h]
  dsimp only
  constructor
  · intro h1
    rw [if_pos h1]
  · intro h1
    rw [if_neg (by omega : ¬ out.length > input.length)]

/-- Witness for C1 at the spec's own sizes: a 1000-byte engine output
against a 900-byte input falls back to the original, and an 800-byte
output is kept. -/
theorem fallback_policy_witness :
    (shrinkPdfLikeScript cleanProgState ⟨none, [], Except.ok (List.replicate 1000 0)⟩
      (List.replicate 900 0) {}).result
      = Except.ok ⟨List.replicate 900 0, true, (detectPdfVersion (List.replicate 900 0)).getD "1.5"⟩ ∧
    (shrinkPdfLikeScript cleanProgState ⟨none, [], Except.ok (List.replicate 800 0)⟩
      (List.replicate 900 0) {}).result
      = Except.ok ⟨List.replicate 800 0, false, (detectPdfVersion (List.replicate 900 0)).getD "1.5"⟩ :=
  ⟨(fallback_policy cleanProgState ⟨none, [], Except.ok (List.replicate 1000 0)⟩
      (List.replicate 900 0) {} (List.replicate 1000 0) rfl).1
      (by rw [List.length_replicate, List.length_replicate]; omega),
   (fallback_policy cleanProgState ⟨none, [], Except.ok (List.replicate 800 0)⟩
      (List.replicate 900 0) {} (List.replicate 800 0) rfl).2
      (by rw [List.length_replicate, List.length_replicate]; omega)⟩

/-- C2: the queue's event trace is the concatenation of disjoint
per-job event blocks in submission order (so at most one job is ever in
flight and no two jobs' events interleave), the terminal events appear
in submission order, one per job, and a job's block — hence the outcome
of every later-queued job — does not depend on the queue state left by
earlier jobs, so a failure of one job never prevents a later job from
running to its own outcome. -/
theorem queue_serializes_and_isolates_jobs (st st' : ProgState)
    (jobs pre post : List (CompressMsg × EngineRun)) (a : CompressMsg × EngineRun) :
    processQueue st jobs = jobs.flatMap (fun p => jobBlock p.1 p.2) ∧
    (processQueue st jobs).filter (fun e => isTerminal e)
      = jobs.map (fun p => terminalEvent p.1 p.2) ∧
    processQueue st (pre ++ a :: post)
      = processQueue st pre ++ jobBlock a.1 a.2 ++ processQueue st' post := by
  refine ⟨processQueue_eq_flatMap st jobs, processQueue_terminals st jobs, ?_⟩
  rw [processQueue_eq_flatMap, processQueue_eq_flatMap, processQueue_eq_flatMap]
  simp [List.flatMap_append, List.flatMap_cons, List.append_assoc]

/-- C3: with pairwise-distinct job identifiers, each submitted job gets
exactly one terminal event for its identifier in the whole queue trace,
and that event is either a `result` (with bytes, fallback flag and
version) or an `error` (with a message) for that identifier — never
both. -/
theorem exactly_one_terminal_event_per_job (st : ProgState)
    (jobs : List (CompressMsg × EngineRun))
    (hnd : (jobs.map (fun p => p.1.jobId)).Nodup)
    (p : CompressMsg × EngineRun) (hp : p ∈ jobs) :
    (processQueue st jobs).filter (fun e => isTerminal e && (eventJobId e == p.1.jobId))
      = [terminalEvent p.1 p.2] ∧
    ((∃ out u v, terminalEvent p.1 p.2 = .result p.1.jobId out u v) ∨
     (∃ m, terminalEvent p.1 p.2 = .error p.1.jobId m)) :=
  ⟨processQueue_filter_of_nodup st jobs hnd p hp, terminalEvent_shape p.1 p.2⟩

/-- Witness for C3: two queued jobs with distinct identifiers, the
first of which fails at engine creation; job `b` still gets exactly one
terminal event. -/
theorem exactly_one_terminal_event_witness :
    (processQueue cleanProgState
      [(⟨"a", [], {}⟩, ⟨some "boom", [], Except.ok []⟩),
       (⟨"b", [], {}⟩, ⟨none, [], Except.ok []⟩)]).filter
      (fun e => isTerminal e && (eventJobId e == "b"))
      = [terminalEvent ⟨"b", [], {}⟩ ⟨none, [], Except.ok []⟩] :=
  (exactly_one_terminal_event_per_job cleanProgState
    [(⟨"a", [], {}⟩, ⟨some "boom", [], Except.ok []⟩),
     (⟨"b", [], {}⟩, ⟨none, [], Except.ok []⟩)]
    (by decide)
    (⟨"b", [], {}⟩, ⟨none, [], Except.ok []⟩)
    (List.mem_cons_of_mem _ (List.mem_cons_self _ _))).1

/-- Counterexample for C4: at the reachable state of 29 pages done out
of a total of 100 (feed `"Processing pages 1 through 100."` then
`"Page 29"`), the worker's double-precision arithmetic emits percent 28
— `(29/100)*100` evaluates to `28.999999999999996` in binary64 — while
the claimed exact formula `clamp(floor(29 * 100 / 100), 0, 99)` gives
29. -/
theorem progress_percent_double_rounding_counterexample :
    ((feedLines ⟨some "j", none, 0⟩
      ["Processing pages 1 through 100.", "Page 29"]).2).getLast?
      = some (.progress "j" ⟨28, 29, some 100⟩) ∧
    (feedLines ⟨some "j", none, 0⟩
      ["Processing pages 1 through 100.", "Page 29"]).1.totalPages = some 100 ∧
    (feedLines ⟨some "j", none, 0⟩
      ["Processing pages 1 through 100.", "Page 29"]).1.currentPage = 29 ∧
    (28 : ℕ) ≠ min 99 (max 0 (29 * 100 / 100)) := by
  refine ⟨?_, ?_, ?_, ?_⟩ <;> decide

/-- C4 (amended): over every progress state reachable from a job start
by feeding log lines, an unknown `totalPages` forces percent 0
regardless of `currentPage`; a known `totalPages = t` gives
`percent = clamp(floor(currentPage / totalPages * 100), 0, 99)`
evaluated in IEEE-754 double precision (`doublePercent`), which can
round to one below the exact value; log-inferred progress still never
reports 100; and feeding just `"Page 1"` yields `totalPages = 1` with
an emitted percent of 99. -/
theorem progress_percent_formula_amended (jid : String) (hjid : jid ≠ "")
    (lines : List String) :
    ((feedLines ⟨some jid, none, 0⟩ lines).1.totalPages = none →
      emitPercent (feedLines ⟨some jid, none, 0⟩ lines).1 = 0) ∧
    (∀ t, (feedLines ⟨some jid, none, 0⟩ lines).1.totalPages = some t →
      emitPercent (feedLines ⟨some jid, none, 0⟩ lines).1
        = doublePercent (feedLines ⟨some jid, none, 0⟩ lines).1.currentPage t ∧
      emitPercent (feedLines ⟨some jid, none, 0⟩ lines).1 < 100) ∧
    (∀ j pr, WorkerEvent.progress j pr ∈ (feedLines ⟨some jid, none, 0⟩ lines).2 →
      pr.percent < 100) ∧
    (feedLines ⟨some jid, none, 0⟩ ["Page 1"]).1.totalPages = some 1 ∧
    (feedLines ⟨some jid, none, 0⟩ ["Page 1"]).2
      = [.progress jid ⟨99, 1, some 1⟩] := by
  have hpct : ∀ aj : Option String, emitPercent ⟨aj, some 1, 1⟩ = 99 := by
    intro aj
    unfold emitPercent
    dsimp only
    decide
  have hstep : parseGsLine ⟨some jid, none, 0⟩ "Page 1"
      = (⟨some jid, some 1, 1⟩, [.progress jid ⟨99, 1, some 1⟩]) := by
    unfold parseGsLine
    dsimp only
    rw [if_neg hjid]
    have hfp : findProcessing ['P', 'a', 'g', 'e', ' ', '1'] = none := by decide
    have hmp : matchPageLine ['P', 'a', 'g', 'e', ' ', '1'] = some 1 := by decide
    rw [hfp, hmp]
    dsimp only
    rw [if_pos (by norm_num : (1 : ℕ) > 0)]
    rw [if_pos (⟨rfl, rfl⟩ : (none : Option ℕ) = none ∧ (1 : ℕ) = 1)]
    unfold emitProgress
    rw [hpct]
  refine ⟨?_, ?_, ?_, ?_, ?_⟩
  · intro h
    unfold emitPercent
    rw [h]
  · intro t ht
    have h1t : 1 ≤ t := feedLines_inv ⟨some jid, none, 0⟩ lines
      (fun t' ht' => Option.noConfusion ht') t ht
    constructor
    · unfold emitPercent
      rw [ht]
      dsimp only
      rw [if_pos (by omega : t > 0)]
    · exact lt_of_le_of_lt (emitPercent_le _) (by norm_num)
  · intro j pr hmem
    obtain ⟨jid', pr', _, he, hp⟩ := feedLines_events _ lines _ hmem
    injection he with h1 h2
    rw [h2]
    exact lt_of_le_of_lt hp (by norm_num)
  · show (feedLines ⟨some jid, none, 0⟩ ["Page 1"]).1.totalPages = some 1
    unfold feedLines
    rw [hstep]
    rfl
  · show (feedLines ⟨some jid, none, 0⟩ ["Page 1"]).2 = _
    unfold feedLines
    rw [hstep]
    rfl

/-- Witness for C4 (amended): at `jid = "j"`, feeding only `"Page 1"`
yields a provisional total of one page and an emitted percent of 99. -/
theorem progress_percent_formula_amended_witness :
    (feedLines ⟨some "j", none, 0⟩ ["Page 1"]).1.totalPages = some 1 ∧
    (feedLines ⟨some "j", none, 0⟩ ["Page 1"]).2
      = [.progress "j" ⟨99, 1, some 1⟩] :=
  ⟨(progress_percent_formula_amended "j" (by decide) []).2.2.2.1,
   (progress_percent_formula_amended "j" (by decide) []).2.2.2.2⟩

/-- Counterexample for C5: with `grayscale = true`, the built argument
list ends with `-dOverrideICC` followed by the input path, so the
output-file argument and the input path are not the final two
arguments. -/
theorem output_arg_not_second_to_last_when_grayscale :
    (buildArgs ⟨some true, none, none, none⟩ "1.5").drop
      ((buildArgs ⟨some true, none, none, none⟩ "1.5").length - 2)
      = ["-dOverrideICC", "/in.pdf"] ∧
    (buildArgs ⟨some true, none, none, none⟩ "1.5").drop
      ((buildArgs ⟨some true, none, none, none⟩ "1.5").length - 2)
      ≠ ["-sOutputFile=" ++ outPath, inPath] := by
  constructor <;> decide

/-- C5 (amended): the input path is always the final argument; when
`grayscale` is false the output-file argument immediately precedes it,
and when `grayscale` is true the three grayscale arguments sit between
the output-file argument and the input path (the last five arguments
being the output-file argument, the three grayscale flags, and the
input path). -/
theorem input_path_last_in_args (options : ShrinkOptions) (v : String) :
    (buildArgs options v).getLast? = some inPath ∧
    (options.grayscale.getD false = false →
      (buildArgs options v).drop ((buildArgs options v).length - 2)
        = ["-sOutputFile=" ++ outPath, inPath]) ∧
    (options.grayscale.getD false = true →
      (buildArgs options v).drop ((buildArgs options v).length - 5)
        = ["-sOutputFile=" ++ outPath, "-sProcessColorModel=DeviceGray",
           "-sColorConversionStrategy=Gray", "-dOverrideICC", inPath]) := by
  by_cases hg : options.grayscale.getD false = true
  · refine ⟨?_, ?_, ?_⟩
    · unfold buildArgs
      dsimp only
      rw [if_pos hg]
      rfl
    · intro h
      rw [h] at hg
      exact Bool.noConfusion hg
    · intro _
      unfold buildArgs
      dsimp only
      rw [if_pos hg]
      rfl
  · have hg' : options.grayscale.getD false = false := by
      cases hb : options.grayscale.getD false
      · rfl
      · exact absurd hb hg
    refine ⟨?_, ?_, ?_⟩
    · unfold buildArgs
      dsimp only
      rw [if_neg hg]
      rfl
    · intro _
      unfold buildArgs
      dsimp only
      rw [if_neg hg]
      rfl
    · intro h
      exact absurd h hg

/-- Witness for C5 (amended), at concrete options with grayscale off and
on. -/
theorem input_path_last_in_args_witness :
    (buildArgs ⟨some false, none, none, none⟩ "1.5").drop
      ((buildArgs ⟨some false, none, none, none⟩ "1.5").length - 2)
      = ["-sOutputFile=" ++ outPath, inPath] ∧
    (buildArgs ⟨some true, none, none, none⟩ "1.5").drop
      ((buildArgs ⟨some true, none, none, none⟩ "1.5").length - 5)
      = ["-sOutputFile=" ++ outPath, "-sProcessColorModel=DeviceGray",
         "-sColorConversionStrategy=Gray", "-dOverrideICC", inPath] :=
  ⟨(input_path_last_in_args ⟨some false, none, none, none⟩ "1.5").2.1 rfl,
   (input_path_last_in_args ⟨some true, none, none, none⟩ "1.5").2.2 rfl⟩

/-- Counterexample for C6: a second `Processing pages` line reporting a
smaller range lowers `totalPages` from 5 to 2 after it was observed. -/
theorem total_pages_decrease_counterexample :
    (parseGsLine ⟨some "j", none, 0⟩ "Processing pages 1 through 5.").1.totalPages
      = some 5 ∧
    (parseGsLine (parseGsLine ⟨some "j", none, 0⟩ "Processing pages 1 through 5.").1
      "Processing pages 1 through 2.").1.totalPages = some 2 ∧
    (2 : ℕ) < 5 := by
  refine ⟨?_, ?_, by norm_num⟩ <;> decide

/-- C6 (amended): within a job, `currentPage` is non-decreasing across
any sequence of consumed lines; `totalPages`, once observed, never
becomes unobserved again, and is left unchanged by any line in which
the `Processing pages … through … .` pattern does not occur — only a
later `Processing pages` line can overwrite (and possibly lower) it. -/
theorem progress_state_monotonic_amended (st : ProgState) (ls : List String)
    (l : String) (t : Nat) :
    st.currentPage ≤ (feedLines st ls).1.currentPage ∧
    (st.totalPages.isSome → ((feedLines st ls).1.totalPages).isSome) ∧
    (st.totalPages = some t → findProcessing l.data = none →
      (parseGsLine st l).1.totalPages = some t) := by
  refine ⟨feedLines_currentPage_mono st ls, feedLines_totalPages_isSome st ls, ?_⟩
  intro ht hfp
  rcases parseGsLine_spec st l with h | ⟨st', jid, h, _, _, _, _, hnp⟩
  · rw [h]
    exact ht
  · rw [h]
    rcases hnp hfp with he | ⟨hn, _⟩
    · rw [he]
      exact ht
    · rw [hn] at ht
      cases ht

/-- Witness for C6 (amended) at a concrete state and line. -/
theorem progress_state_monotonic_witness :
    (1 : ℕ) ≤ (feedLines ⟨some "j", some 3, 1⟩ ["Page 2"]).1.currentPage ∧
    (parseGsLine ⟨some "j", some 3, 1⟩ "Page 2").1.totalPages = some 3 :=
  ⟨(progress_state_monotonic_amended ⟨some "j", some 3, 1⟩ ["Page 2"] "Page 2" 3).1,
   (progress_state_monotonic_amended ⟨some "j", some 3, 1⟩ ["Page 2"] "Page 2" 3).2.2
     rfl (by decide)⟩

/-- Counterexample for C7: after `"Processing pages 3 through 12."` and
`"Page 5"` the emitted percent is 50 (5 of 10 pages), not 40. -/
theorem pages_three_through_twelve_counterexample :
    ((feedLines ⟨some "j", none, 0⟩
      ["Processing pages 3 through 12.", "Page 5"]).2).getLast?
      = some (.progress "j" ⟨50, 5, some 10⟩) ∧
    ((feedLines ⟨some "j", none, 0⟩
      ["Processing pages 3 through 12.", "Page 5"]).2).getLast?
      ≠ some (.progress "j" ⟨40, 5, some 10⟩) := by
  constructor <;> decide

/-- C7 (amended): feeding `"Processing pages 3 through 12."` then
`"Page 5"` yields `totalPages = 10`, `currentPage = 5`, and an emitted
percent of 50. -/
theorem pages_three_through_twelve_percent_fifty :
    (feedLines ⟨some "j", none, 0⟩
      ["Processing pages 3 through 12.", "Page 5"]).1.totalPages = some 10 ∧
    (feedLines ⟨some "j", none, 0⟩
      ["Processing pages 3 through 12.", "Page 5"]).1.currentPage = 5 ∧
    ((feedLines ⟨some "j", none, 0⟩
      ["Processing pages 3 through 12.", "Page 5"]).2).getLast?
      = some (.progress "j" ⟨50, 5, some 10⟩) := by
  refine ⟨?_, ?_, ?_⟩ <;> decide

/-- C8: the version sniffer inspects only the first 1024 bytes decoded
as permissive ASCII; an input beginning `%PDF-1.7` yields `"1.7"`; it
returns `none` exactly when no `%PDF-<digit>.<digit>` marker occurs in
that window, and any returned value is the `<digit>.<digit>` string of
such a marker; the job runner then uses the sniffed value with default
`"1.5"` whenever the sniffer returned `none` (the sniffer is a total
function, so it has no failure mode). -/
theorem version_sniffer_spec (bytes : List Nat) :
    detectPdfVersion bytes = detectPdfVersion (bytes.take 1024) ∧
    (∀ suffix, detectPdfVersion (pdf17HeaderBytes ++ suffix) = some "1.7") ∧
    (detectPdfVersion bytes = none ↔
      ∀ i, matchPdfVersionAt ((asciiDecode (bytes.take 1024)).drop i) = none) ∧
    (∀ v, detectPdfVersion bytes = some v →
      (∃ i, matchPdfVersionAt ((asciiDecode (bytes.take 1024)).drop i) = some v) ∧
      ∃ a b, a.isDigit ∧ b.isDigit ∧ v = String.mk [a, '.', b]) ∧
    (∀ st run input options r,
      (shrinkPdfLikeScript st run input options).result = Except.ok r →
      r.pdfVersionUsed = (detectPdfVersion input).getD "1.5") := by
  refine ⟨detectPdfVersion_take bytes, detectPdfVersion_header, ?_, ?_, ?_⟩
  · exact findPdfVersion_eq_none_iff _
  · intro v hv
    have hs := findPdfVersion_some _ v hv
    refine ⟨hs, ?_⟩
    obtain ⟨i, hi⟩ := hs
    exact matchPdfVersionAt_shape _ v hi
  · intro st run input options r h
    exact shrink_result_version st run input options r h

/-- Witness for C8 at the concrete header `%PDF-1.7`. -/
theorem version_sniffer_witness :
    detectPdfVersion (pdf17HeaderBytes ++ []) = some "1.7" ∧
    ∃ a b, a.isDigit ∧ b.isDigit ∧ "1.7" = String.mk [a, '.', b] :=
  ⟨(version_sniffer_spec pdf17HeaderBytes).2.1 [],
   ((version_sniffer_spec (pdf17HeaderBytes ++ [])).2.2.2.1 "1.7"
     ((version_sniffer_spec pdf17HeaderBytes).2.1 [])).2⟩

/-- C9: starting from the worker's initial state, every queued job
begins with the clean progress state `(activeJobId, totalPages,
currentPage) = (null, null, 0)`, and every job whose engine instance was
created — whether it ends in `done` or in `failed` — leaves the progress
state reset to that clean state for the next job. -/
theorem progress_state_reset_between_jobs (jobs : List (CompressMsg × EngineRun))
    (st : ProgState) (msg : CompressMsg) (run : EngineRun)
    (h : run.createFails = none) :
    queueStates cleanProgState jobs = List.replicate jobs.length cleanProgState ∧
    (handleJob st msg run).finalState = cleanProgState :=
  ⟨queueStates_clean jobs, handleJob_finalState_of_created st msg run h⟩

/-- Witness for C9: a job started on a dirty state, ending in `done`,
leaves the clean state behind. -/
theorem progress_state_reset_witness :
    (handleJob ⟨some "x", some 5, 3⟩ ⟨"a", [], {}⟩
      ⟨none, [], Except.ok []⟩).finalState = cleanProgState :=
  (progress_state_reset_between_jobs [] ⟨some "x", some 5, 3⟩ ⟨"a", [], {}⟩
    ⟨none, [], Except.ok []⟩ rfl).2

/-- C10: a log line delivered while no job is active (`activeJobId` is
null) leaves the progress state unchanged and posts no progress event,
whatever the line says. -/
theorem parser_inactive_is_noop (st : ProgState) (line : String)
    (h : st.activeJobId = none) :
    parseGsLine st line = (st, []) := by
  unfold parseGsLine
  rw [h]

/-- Witness for C10 at a recognized page line. -/
theorem parser_inactive_witness :
    parseGsLine ⟨none, none, 0⟩ "Page 3" = (⟨none, none, 0⟩, []) :=
  parser_inactive_is_noop ⟨none, none, 0⟩ "Page 3" rfl
